import Mathlib

/-!
Verification of claims about the Processor Table constraint system and the
proof stream of a STARK-based virtual machine, shallowly embedded from the
Rust sources `triton-vm/src/table/processor_table.rs` and
`triton-vm/src/proof_stream.rs`.

The base field of the VM is the prime field with modulus 2^64 - 2^32 + 1.
Constraints and extension-column accumulators live in a cubic extension of
that field; every property treated here is generic in the field containing
the base field, so extension-field values are modelled in the base field
itself.

The file is organised as: all definitions first, then all theorems.
-/

set_option maxRecDepth 10000

namespace TritonVM

/-- The modulus of the VM's base prime field `BFieldElement`: 2^64 - 2^32 + 1. -/
def goldilocks : Nat := 18446744069414584321

/-- The VM's base field, `BFieldElement` in the source. Extension-field values
(`XFieldElement`) are modelled in the same field; see the module comment. -/
abbrev F : Type := ZMod goldilocks

/-- Fuel-driven binary modular exponentiation, used to certify primality of
the modulus via a Lucas certificate. -/
def powModFuel : Nat → Nat → Nat → Nat → Nat
  | 0, _, _, n => 1 % n
  | fuel + 1, a, e, n =>
    if e = 0 then 1 % n
    else
      let h := powModFuel fuel (a * a % n) (e / 2) n
      if e % 2 = 1 then h * a % n else h

/-- The base columns of the Processor Table (`ProcessorBaseTableColumn`). -/
inductive ProcessorBaseTableColumn
  | CLK
  | IsPadding
  | IP
  | CI
  | NIA
  | IB0
  | IB1
  | IB2
  | IB3
  | IB4
  | IB5
  | IB6
  | IB7
  | JSP
  | JSO
  | JSD
  | ST0
  | ST1
  | ST2
  | ST3
  | ST4
  | ST5
  | ST6
  | ST7
  | ST8
  | ST9
  | ST10
  | ST11
  | ST12
  | ST13
  | ST14
  | ST15
  | OpStackPointer
  | HV0
  | HV1
  | HV2
  | HV3
  | HV4
  | HV5
  | HV6
  | RAMP
  | RAMV
  | PreviousInstruction
  | ClockJumpDifferenceLookupMultiplicity
  deriving DecidableEq

open ProcessorBaseTableColumn

/-- One row of the base trace: a value in `F` for every base column. -/
abbrev Row := ProcessorBaseTableColumn → F

/-- The padding template of `pad_trace`: the last real row, with
`IsPadding := 1` and `ClockJumpDifferenceLookupMultiplicity := 0`. -/
def paddingTemplate (trace : Nat → Row) (len : Nat) : Row := fun c =>
  if c = IsPadding then 1
  else if c = ClockJumpDifferenceLookupMultiplicity then 0
  else trace (len - 1) c

/-- First step of `pad_trace`: clone the padding template into every row of
index at least `len`. -/
def padTraceClone (trace : Nat → Row) (len : Nat) : Nat → Row := fun i =>
  if len ≤ i then paddingTemplate trace len else trace i

/-- Second step of `pad_trace`: overwrite `CLK` in the padding region with the
contiguous ramp `len, len + 1, ...`. -/
def padTraceClk (trace : Nat → Row) (len : Nat) : Nat → Row := fun i c =>
  if len ≤ i ∧ c = CLK then (i : F) else padTraceClone trace len i c

/-- `ProcessorTable::pad_trace`: clone the last real row into the padding
region, fix up `IsPadding`, `ClockJumpDifferenceLookupMultiplicity` and `CLK`,
then add `2 * (nRows - len)` to the lookup multiplicity of row 1. -/
def padTrace (trace : Nat → Row) (nRows len : Nat) : Nat → Row := fun i c =>
  if i = 1 ∧ c = ClockJumpDifferenceLookupMultiplicity then
    padTraceClk trace len 1 ClockJumpDifferenceLookupMultiplicity
      + ((2 * (nRows - len) : Nat) : F)
  else padTraceClk trace len i c

/-- Instruction bit `b` of an opcode (`Instruction::ib`), as a field element.
Instructions are identified with their opcodes; the 8-bit decomposition
`ib0..ib7` of an opcode is its binary representation. -/
def instructionBit (opcode : Nat) (b : Fin 8) : F :=
  if Nat.testBit opcode b.val then 1 else 0

/-- Evaluation of the deselector for the instruction with the given opcode
against the 8 instruction-bit values of a row
(`instruction_deselector_common_functionality`): the product over the 8
instruction bits of `IB_b - (1 - ib_b(opcode))`. -/
def instructionDeselectorEval (opcode : Nat) (ib : Fin 8 → F) : F :=
  ∏ b : Fin 8, (ib b - (1 - instructionBit opcode b))

/-- The base column holding instruction bit `b`. -/
def ibColumn : Fin 8 → ProcessorBaseTableColumn
  | 0 => IB0
  | 1 => IB1
  | 2 => IB2
  | 3 => IB3
  | 4 => IB4
  | 5 => IB5
  | 6 => IB6
  | 7 => IB7

/-- `instruction_deselector_current_row`: reads the current row's IB columns. -/
def instructionDeselectorCurrentRow (opcode : Nat) (curr _next : Row) : F :=
  instructionDeselectorEval opcode (fun b => curr (ibColumn b))

/-- `instruction_deselector_next_row`: reads the next row's IB columns. -/
def instructionDeselectorNextRow (opcode : Nat) (_curr next : Row) : F :=
  instructionDeselectorEval opcode (fun b => next (ibColumn b))

/-- `instruction_deselector_single_row`: reads the single row's IB columns. -/
def instructionDeselectorSingleRow (opcode : Nat) (row : Row) : F :=
  instructionDeselectorEval opcode (fun b => row (ibColumn b))

/-- `indicator_polynomial(index)`: the `index`-th 4-bit minterm over the
current row's helper variables `HV0..HV3` (out-of-range indices are
unreachable in the source, which panics there; they are mapped to 0). -/
def indicatorPolynomial (index : Nat) (row : Row) : F :=
  match index with
  | 0 => (1 - row HV3) * (1 - row HV2) * (1 - row HV1) * (1 - row HV0)
  | 1 => (1 - row HV3) * (1 - row HV2) * (1 - row HV1) * row HV0
  | 2 => (1 - row HV3) * (1 - row HV2) * row HV1 * (1 - row HV0)
  | 3 => (1 - row HV3) * (1 - row HV2) * row HV1 * row HV0
  | 4 => (1 - row HV3) * row HV2 * (1 - row HV1) * (1 - row HV0)
  | 5 => (1 - row HV3) * row HV2 * (1 - row HV1) * row HV0
  | 6 => (1 - row HV3) * row HV2 * row HV1 * (1 - row HV0)
  | 7 => (1 - row HV3) * row HV2 * row HV1 * row HV0
  | 8 => row HV3 * (1 - row HV2) * (1 - row HV1) * (1 - row HV0)
  | 9 => row HV3 * (1 - row HV2) * (1 - row HV1) * row HV0
  | 10 => row HV3 * (1 - row HV2) * row HV1 * (1 - row HV0)
  | 11 => row HV3 * (1 - row HV2) * row HV1 * row HV0
  | 12 => row HV3 * row HV2 * (1 - row HV1) * (1 - row HV0)
  | 13 => row HV3 * row HV2 * (1 - row HV1) * row HV0
  | 14 => row HV3 * row HV2 * row HV1 * (1 - row HV0)
  | 15 => row HV3 * row HV2 * row HV1 * row HV0
  | _ => 0

/-- The binary representation of `n` as values of `(HV0, HV1, HV2, HV3)`,
with `HV0` the least significant bit. -/
def binaryRep (n : Nat) : F × F × F × F :=
  (instructionBit n 0, instructionBit n 1, instructionBit n 2, instructionBit n 3)

/-- `instruction_skiz` constraint: `hv1` is the inverse of `st0` or `hv1` is 0. -/
def hv1IsInverseOfSt0OrHv1Is0 (curr : Row) : F :=
  (curr HV1 * curr ST0 - 1) * curr HV1

/-- `instruction_skiz` constraint: `hv1` is the inverse of `st0` or `st0` is 0. -/
def hv1IsInverseOfSt0OrSt0Is0 (curr : Row) : F :=
  (curr HV1 * curr ST0 - 1) * curr ST0

/-- `instruction_skiz` constraint: `nia` decomposes into the helper variables
as `NIA = HV2 + 2·HV3 + 8·HV4 + 32·HV5 + 128·HV6`. -/
def niaDecomposesToHvs (curr : Row) : F :=
  curr NIA - curr HV2 - 2 * curr HV3 - 8 * curr HV4 - 32 * curr HV5 - 128 * curr HV6

/-- `skiz` case 1: register `st0` is 0 or `ip` is incremented by 1. -/
def ipCase1 (curr next : Row) : F :=
  (next IP - curr IP - 1) * curr ST0

/-- `skiz` case 2: `st0` has an inverse or `hv2` is 1 or `ip` increments by 2. -/
def ipCase2 (curr next : Row) : F :=
  (next IP - curr IP - 2) * (curr ST0 * curr HV1 - 1) * (curr HV2 - 1)

/-- `skiz` case 3: `st0` has an inverse or `hv2` is 0 or `ip` increments by 3. -/
def ipCase3 (curr next : Row) : F :=
  (next IP - curr IP - 3) * (curr ST0 * curr HV1 - 1) * curr HV2

/-- The combined `skiz` instruction-pointer constraint `ip_incr_by_1_or_2_or_3`. -/
def ipIncrBy1Or2Or3 (curr next : Row) : F :=
  ipCase1 curr next + ipCase2 curr next + ipCase3 curr next

/-- Range-check polynomial `is_0_or_1` from
`next_instruction_range_check_constraints_for_instruction_skiz`. -/
def is0Or1 (x : F) : F := x * (x - 1)

/-- Range-check polynomial `is_0_or_1_or_2_or_3` from
`next_instruction_range_check_constraints_for_instruction_skiz`. -/
def is0Or1Or2Or3 (x : F) : F := x * (x - 1) * (x - 2) * (x - 3)

/-- The extension columns of the Processor Table (`ProcessorExtTableColumn`). -/
inductive ProcessorExtTableColumn
  | InputTableEvalArg
  | OutputTableEvalArg
  | InstructionLookupClientLogDerivative
  | OpStackTablePermArg
  | RamTablePermArg
  | JumpStackTablePermArg
  | HashInputEvalArg
  | HashDigestEvalArg
  | SpongeEvalArg
  | U32LookupClientLogDerivative
  | ClockJumpDifferenceLookupServerLogDerivative
  deriving DecidableEq

/-- One extension row: a value for every extension column. -/
abbrev ExtRow := ProcessorExtTableColumn → F

/-- The challenge identifiers referenced by the embedded constraints
(`ChallengeId`). -/
inductive ChallengeId
  | StandardInputIndeterminate
  | StandardOutputIndeterminate
  | InstructionLookupIndeterminate
  | ProgramAddressWeight
  | ProgramInstructionWeight
  | ProgramNextInstructionWeight
  | OpStackIndeterminate
  | OpStackClkWeight
  | OpStackIb1Weight
  | OpStackPointerWeight
  | OpStackFirstUnderflowElementWeight
  | RamIndeterminate
  | RamClkWeight
  | RamRampWeight
  | RamRamvWeight
  | RamPreviousInstructionWeight
  | JumpStackIndeterminate
  | JumpStackClkWeight
  | JumpStackCiWeight
  | JumpStackJspWeight
  | JumpStackJsoWeight
  | JumpStackJsdWeight
  | HashInputIndeterminate
  | HashDigestIndeterminate
  | SpongeIndeterminate
  | HashCIWeight
  | U32Indeterminate
  | U32LhsWeight
  | U32RhsWeight
  | U32CiWeight
  | U32ResultWeight
  | ClockJumpDifferenceLookupIndeterminate
  deriving DecidableEq

/-- A bundle of sampled challenges, indexed by `ChallengeId`. -/
abbrev Challenges := ChallengeId → F

open ProcessorExtTableColumn ChallengeId

/-- Modelled from the spec: `EvalArg::default_initial()` lives in
`cross_table_argument.rs`, which is not under src/; per spec section 4.3,
evaluation arguments start at 1. -/
def evalArgDefaultInitial : F := 1

/-- Modelled from the spec: `PermArg::default_initial()` lives in
`cross_table_argument.rs`, which is not under src/; per spec section 4.3,
permutation products start at 1. -/
def permArgDefaultInitial : F := 1

/-- Modelled from the spec: `LookupArg::default_initial()` lives in
`cross_table_argument.rs`, which is not under src/; per spec section 4.3,
log-derivatives start at 0. -/
def lookupArgDefaultInitial : F := 0

/-- Initial constraint for the standard-input running evaluation. -/
def inputEvalArgInitialConstraint (ext : ExtRow) : F :=
  ext InputTableEvalArg - evalArgDefaultInitial

/-- Initial constraint for the instruction-lookup log derivative: the
accumulator, minus its default initial, times the first row's compressed-row
factor, equals 1 (`instruction_lookup_log_derivative_is_initialized_correctly`;
the address `IP` is constrained to 0 by another initial constraint and does
not appear). -/
def illdInitialConstraint (base : Row) (ext : ExtRow) (ch : Challenges) : F :=
  (ext InstructionLookupClientLogDerivative - lookupArgDefaultInitial)
    * (ch InstructionLookupIndeterminate
      - (ch ProgramInstructionWeight * base CI + ch ProgramNextInstructionWeight * base NIA))
    - 1

/-- Initial constraint for the standard-output running evaluation. -/
def outputEvalArgInitialConstraint (ext : ExtRow) : F :=
  ext OutputTableEvalArg - evalArgDefaultInitial

/-- Initial constraint for the op-stack running product. -/
def opStackPermArgInitialConstraint (ext : ExtRow) : F :=
  ext OpStackTablePermArg - permArgDefaultInitial

/-- Initial constraint for the RAM running product: one compression factor
applied once at row 0 (`clk` and `ramp` are constrained to 0 elsewhere). -/
def ramPermArgInitialConstraint (base : Row) (ext : ExtRow) (ch : Challenges) : F :=
  ext RamTablePermArg
    - permArgDefaultInitial * (ch RamIndeterminate - ch RamRamvWeight * base RAMV)

/-- Initial constraint for the jump-stack running product: one compression
factor applied once at row 0 (`clk`, `jsp`, `jso`, `jsd` are constrained to 0
elsewhere). -/
def jumpStackPermArgInitialConstraint (base : Row) (ext : ExtRow) (ch : Challenges) : F :=
  ext JumpStackTablePermArg
    - permArgDefaultInitial * (ch JumpStackIndeterminate - ch JumpStackCiWeight * base CI)

/-- Initial constraint for the clock-jump-difference lookup log derivative. -/
def clockJumpDiffInitialConstraint (ext : ExtRow) : F :=
  ext ClockJumpDifferenceLookupServerLogDerivative - lookupArgDefaultInitial

/-- Initial constraint for the hash-input running evaluation: split by
selector/deselector on whether `CI` is `Hash`'s opcode into
"absorbed-first-row" (the compressed row is the constant 0, the op stack
being 0 initially) versus "remains default". -/
def hashInputInitialConstraint (hashOpcode : Nat) (base : Row) (ext : ExtRow)
    (ch : Challenges) : F :=
  (base CI - (hashOpcode : F)) * (ext HashInputEvalArg - evalArgDefaultInitial)
    + instructionDeselectorSingleRow hashOpcode base
      * (ext HashInputEvalArg - ch HashInputIndeterminate * evalArgDefaultInitial - 0)

/-- Initial constraint for the hash-digest running evaluation. -/
def hashDigestInitialConstraint (ext : ExtRow) : F :=
  ext HashDigestEvalArg - evalArgDefaultInitial

/-- Initial constraint for the sponge running evaluation. -/
def spongeInitialConstraint (ext : ExtRow) : F :=
  ext SpongeEvalArg - evalArgDefaultInitial

/-- Initial constraint for the U32 lookup log derivative. -/
def u32InitialConstraint (ext : ExtRow) : F :=
  ext U32LookupClientLogDerivative - lookupArgDefaultInitial

/-- Opcodes of the instructions handled by the U32 section of the trace
extender. The `Instruction` enum lives outside src/; only distinctness of the
opcodes matters here. -/
structure U32TableOpcodes where
  split : Nat
  lt : Nat
  and : Nat
  xor : Nat
  pow : Nat
  log2Floor : Nat
  popCount : Nat
  divMod : Nat

/-- Compressed row for a `split` lookup in the trace extender. -/
def u32SplitCompressedRow (prev curr : Row) (ch : Challenges) : F :=
  curr ST0 * ch U32LhsWeight + curr ST1 * ch U32RhsWeight + prev CI * ch U32CiWeight

/-- Compressed row for an `lt`/`and`/`pow` lookup in the trace extender. -/
def u32BinopCompressedRow (prev curr : Row) (ch : Challenges) : F :=
  prev ST0 * ch U32LhsWeight + prev ST1 * ch U32RhsWeight + prev CI * ch U32CiWeight
    + curr ST0 * ch U32ResultWeight

/-- Compressed row for an `xor` lookup in the trace extender: `xor` is
rewritten as a lookup against the `and` result via
`a & b = (a + b - a ^ b) / 2` (division by 2 is multiplication by its
inverse). -/
def u32XorCompressedRow (ops : U32TableOpcodes) (prev curr : Row) (ch : Challenges) : F :=
  prev ST0 * ch U32LhsWeight + prev ST1 * ch U32RhsWeight
    + (ops.and : F) * ch U32CiWeight
    + (prev ST0 + prev ST1 - curr ST0) * (2 : F)⁻¹ * ch U32ResultWeight

/-- Compressed row for a `log_2_floor`/`pop_count` lookup in the extender. -/
def u32UnopCompressedRow (prev curr : Row) (ch : Challenges) : F :=
  prev ST0 * ch U32LhsWeight + prev CI * ch U32CiWeight + curr ST0 * ch U32ResultWeight

/-- Compressed row for the `lt` check contributed by `div_mod`. -/
def u32DivModLtCompressedRow (ops : U32TableOpcodes) (prev curr : Row)
    (ch : Challenges) : F :=
  curr ST0 * ch U32LhsWeight + prev ST1 * ch U32RhsWeight
    + (ops.lt : F) * ch U32CiWeight + 1 * ch U32ResultWeight

/-- Compressed row for the `split` range check contributed by `div_mod`. -/
def u32DivModRangeCheckCompressedRow (ops : U32TableOpcodes) (prev curr : Row)
    (ch : Challenges) : F :=
  prev ST0 * ch U32LhsWeight + curr ST1 * ch U32RhsWeight
    + (ops.split : F) * ch U32CiWeight

/-- The U32 section of `ProcessorTable::extend`: the update applied to the
running-sum log derivative `u32_table_running_sum_log_derivative` for one row
transition, dispatching on the previous row's `CI`. -/
def u32LogDerivUpdate (ops : U32TableOpcodes) (prev curr : Row) (ch : Challenges)
    (acc : F) : F :=
  let acc := if prev CI = (ops.split : F) then
    acc + (ch U32Indeterminate - u32SplitCompressedRow prev curr ch)⁻¹ else acc
  let acc := if prev CI = (ops.lt : F) ∨ prev CI = (ops.and : F) ∨ prev CI = (ops.pow : F)
    then acc + (ch U32Indeterminate - u32BinopCompressedRow prev curr ch)⁻¹ else acc
  let acc := if prev CI = (ops.xor : F) then
    acc + (ch U32Indeterminate - u32XorCompressedRow ops prev curr ch)⁻¹ else acc
  let acc := if prev CI = (ops.log2Floor : F) ∨ prev CI = (ops.popCount : F) then
    acc + (ch U32Indeterminate - u32UnopCompressedRow prev curr ch)⁻¹ else acc
  let acc := if prev CI = (ops.divMod : F) then
    acc + (ch U32Indeterminate - u32DivModLtCompressedRow ops prev curr ch)⁻¹
      + (ch U32Indeterminate - u32DivModRangeCheckCompressedRow ops prev curr ch)⁻¹
    else acc
  acc

/-- The `xor` factor of the transition constraint
`log_derivative_with_u32_table_updates_correctly`. -/
def u32TransXorFactor (ops : U32TableOpcodes) (curr next : Row) (ch : Challenges) : F :=
  ch U32Indeterminate - ch U32LhsWeight * curr ST0 - ch U32RhsWeight * curr ST1
    - ch U32CiWeight * (ops.and : F)
    - ch U32ResultWeight * (curr ST0 + curr ST1 - next ST0) * (2 : F)⁻¹

/-- The `div_mod` `lt`-check factor of the transition constraint
`log_derivative_with_u32_table_updates_correctly`. -/
def u32TransDivModLtFactor (ops : U32TableOpcodes) (curr next : Row)
    (ch : Challenges) : F :=
  ch U32Indeterminate - ch U32LhsWeight * next ST0 - ch U32RhsWeight * curr ST1
    - ch U32CiWeight * (ops.lt : F) - ch U32ResultWeight

/-- The `div_mod` range-check factor of the transition constraint
`log_derivative_with_u32_table_updates_correctly`. -/
def u32TransDivModRangeCheckFactor (ops : U32TableOpcodes) (curr next : Row)
    (ch : Challenges) : F :=
  ch U32Indeterminate - ch U32LhsWeight * curr ST0 - ch U32RhsWeight * next ST1
    - ch U32CiWeight * (ops.split : F)

/-- Summary of a decoded instruction as used by the op-stack factor: whether
it grows the op stack (`Instruction::grows_op_stack`) and the absolute value
of its op-stack size influence (`op_stack_size_influence().unsigned_abs()`).
The `Instruction` type itself lives outside src/. -/
structure DecodedInstruction where
  growsOpStack : Bool
  opStackDelta : Nat

/-- `op_stack_column_by_index`: the `ST` column with the given index. The
source panics on indices outside `[0, 15]`; those are unreachable from the
call site and are mapped to `ST0` here. -/
def opStackColumnByIndex (index : Nat) : ProcessorBaseTableColumn :=
  match index with
  | 0 => ST0
  | 1 => ST1
  | 2 => ST2
  | 3 => ST3
  | 4 => ST4
  | 5 => ST5
  | 6 => ST6
  | 7 => ST7
  | 8 => ST8
  | 9 => ST9
  | 10 => ST10
  | 11 => ST11
  | 12 => ST12
  | 13 => ST13
  | 14 => ST14
  | 15 => ST15
  | _ => ST0

/-- `factor_for_op_stack_table_running_product`, parametrized by the opcode
decoder (`Instruction::try_from`, which lives outside src/; decoding fails
exactly on illegal opcodes). -/
def factorForOpStackTableRunningProduct (decode : F → Option DecodedInstruction)
    (maybePreviousRow : Option Row) (currentRow : Row) (ch : Challenges) : F :=
  if currentRow IsPadding = 1 then 1
  else
    match maybePreviousRow with
    | none => 1
    | some previousRow =>
      match decode (previousRow CI) with
      | none => 1
      | some instr =>
        let rowWithShorterStack := if instr.growsOpStack then previousRow else currentRow
        (List.range instr.opStackDelta).foldl (fun (factor : F) (offset : Nat) =>
          let stackElementIndex := 15 - offset
          let underflowElement :=
            rowWithShorterStack (opStackColumnByIndex stackElementIndex)
          let offsetOpStackPointer := rowWithShorterStack OpStackPointer + (offset : F)
          let compressedRow := previousRow CLK * ch OpStackClkWeight
            + previousRow IB1 * ch OpStackIb1Weight
            + offsetOpStackPointer * ch OpStackPointerWeight
            + underflowElement * ch OpStackFirstUnderflowElementWeight
          factor * (ch OpStackIndeterminate - compressedRow)) 1

/-- The error type of the proof stream (`ProofStreamError`); only the variant
relevant to `dequeue` is modelled. -/
inductive ProofStreamError
  | EmptyQueue
  deriving DecidableEq

/-- `ProofStream`: the queued proof items, the read index, and the
Fiat-Shamir sponge state. The item type (`ProofItem`) and sponge-state type
(`H::SpongeState`) live outside src/ and are type parameters here. -/
structure ProofStream (α σ : Type) where
  items : List α
  items_index : Nat
  sponge_state : σ

/-- `ProofStream::new`: empty item list, index 0, initial sponge state. -/
def ProofStream.new (α σ : Type) (init : σ) : ProofStream α σ := ⟨[], 0, init⟩

/-- `ProofStream::enqueue`: absorb the item into the sponge when it takes
part in the Fiat-Shamir heuristic (`include_in_fiat_shamir_heuristic` and
`pad_and_absorb_all` live outside src/ and are parameters `fsh` and
`absorb`), then push it onto `items`. -/
def ProofStream.enqueue {α σ : Type} (fsh : α → Bool) (absorb : σ → α → σ)
    (item : α) (s : ProofStream α σ) : ProofStream α σ :=
  { s with
    sponge_state := if fsh item then absorb s.sponge_state item else s.sponge_state
    items := s.items ++ [item] }

/-- `ProofStream::dequeue`: read the item at `items_index`, failing with
`EmptyQueue` when the index is past the end; on success absorb the item into
the sponge when required and advance the index. The updated stream is
returned alongside the result. -/
def ProofStream.dequeue {α σ : Type} (fsh : α → Bool) (absorb : σ → α → σ)
    (s : ProofStream α σ) : Except ProofStreamError α × ProofStream α σ :=
  match s.items.get? s.items_index with
  | none => (Except.error ProofStreamError.EmptyQueue, s)
  | some item =>
    let s' := if fsh item then { s with sponge_state := absorb s.sponge_state item }
      else s
    (Except.ok item, { s' with items_index := s.items_index + 1 })

/-- Enqueue a list of items left to right. -/
def ProofStream.enqueueAll {α σ : Type} (fsh : α → Bool) (absorb : σ → α → σ)
    (s : ProofStream α σ) (l : List α) : ProofStream α σ :=
  l.foldl (fun s a => ProofStream.enqueue fsh absorb a s) s

/-- Dequeue `k` times, collecting the results in order. -/
def ProofStream.dequeueMany {α σ : Type} (fsh : α → Bool) (absorb : σ → α → σ)
    (s : ProofStream α σ) : Nat → List (Except ProofStreamError α) × ProofStream α σ
  | 0 => ([], s)
  | k + 1 =>
    let r := ProofStream.dequeue fsh absorb s
    let rs := ProofStream.dequeueMany fsh absorb r.2 k
    (r.1 :: rs.1, rs.2)

/-- Modelled from the spec: the encoding of one item list inside a `Proof`.
The `BFieldCodec` derive and the `ProofItem` codec live outside src/; per the
spec, a proof is a stream of base-field elements from which the item list is
reconstructed, so the list is count-prefixed and each item's encoding (the
parameter `encItem`) is length-prefixed. -/
def encodeItems {α : Type} (encItem : α → List F) : List α → List F
  | [] => []
  | a :: l => ((encItem a).length : F) :: (encItem a ++ encodeItems encItem l)

/-- Modelled from the spec: `Proof::from(&ProofStream)` serializes only the
`items` field; `items_index` and `sponge_state` are marked ignored. -/
def proofStreamEncode {α σ : Type} (encItem : α → List F) (s : ProofStream α σ) :
    List F :=
  (s.items.length : F) :: encodeItems encItem s.items

/-- Modelled from the spec: decoding of a count-prefixed item sequence; reads
`n` length-prefixed items and returns them with the unconsumed remainder. -/
def decodeItems {α : Type} (decItem : List F → Option α) :
    Nat → List F → Option (List α × List F)
  | 0, rest => some ([], rest)
  | _ + 1, [] => none
  | n + 1, lenF :: rest =>
    if lenF.val ≤ rest.length then
      match decItem (rest.take lenF.val) with
      | none => none
      | some a =>
        match decodeItems decItem n (rest.drop lenF.val) with
        | none => none
        | some (as, r) => some (a :: as, r)
    else none

/-- Modelled from the spec: `ProofStream::try_from(&Proof)` decodes the item
list and resets the ignored fields to their defaults: `items_index` to 0 and
the sponge to the given default state. -/
def proofStreamDecode {α σ : Type} (decItem : List F → Option α)
    (defaultSponge : σ) (proof : List F) : Option (ProofStream α σ) :=
  match proof with
  | [] => none
  | countF :: rest =>
    match decodeItems decItem countF.val rest with
    | some (items, []) => some ⟨items, 0, defaultSponge⟩
    | _ => none

end TritonVM

namespace TritonVM

theorem powModFuel_correct (fuel : Nat) :
    ∀ e a n : Nat, e < 2 ^ fuel → powModFuel fuel a e n = a ^ e % n := by
  induction fuel with
  | zero =>
    intro e a n he
    interval_cases e
    simp [powModFuel]
  | succ fuel ih =>
    intro e a n he
    by_cases he0 : e = 0
    · simp [powModFuel, he0]
    · have hdiv : e / 2 < 2 ^ fuel := by
        have : e < 2 ^ fuel * 2 := by
          have := he
          rw [pow_succ] at this
          exact this
        omega
      have hrec : powModFuel fuel (a * a % n) (e / 2) n = (a * a) ^ (e / 2) % n := by
        rw [ih (e / 2) (a * a % n) n hdiv, Nat.pow_mod, Nat.mod_mod_of_dvd _ dvd_rfl]
        rw [← Nat.pow_mod]
      have hsq : (a * a) ^ (e / 2) = a ^ (2 * (e / 2)) := by
        rw [two_mul, pow_add, ← pow_add]
        ring
      by_cases hodd : e % 2 = 1
      · have hee : e = 2 * (e / 2) + 1 := by omega
        simp only [powModFuel, he0, if_false, hodd, if_true]
        rw [hrec, hsq]
        conv_rhs => rw [hee]
        rw [pow_succ, Nat.mul_mod, Nat.mod_mod_of_dvd _ dvd_rfl, ← Nat.mul_mod]
      · have hee : e = 2 * (e / 2) := by omega
        simp only [powModFuel, he0, if_false, hodd, if_false]
        rw [hrec, hsq, ← hee]

theorem goldilocks_sub_one_lt : goldilocks - 1 < 2 ^ 64 := by decide

theorem seven_pow_card_sub_one :
    (7 : Nat) ^ (goldilocks - 1) % goldilocks = 1 := by
  rw [← powModFuel_correct 64 (goldilocks - 1) 7 goldilocks goldilocks_sub_one_lt]
  decide

theorem goldilocks_sub_one_factorization :
    goldilocks - 1 = 2 ^ 32 * (3 * (5 * (17 * (257 * 65537)))) := by decide

theorem seven_pow_ne_one_aux (q : Nat)
    (h : powModFuel 64 7 ((goldilocks - 1) / q) goldilocks ≠ 1) :
    (7 : ZMod goldilocks) ^ ((goldilocks - 1) / q) ≠ 1 := by
  intro hcontra
  apply h
  have hlt : (goldilocks - 1) / q < 2 ^ 64 := by
    calc (goldilocks - 1) / q ≤ goldilocks - 1 := Nat.div_le_self _ _
    _ < 2 ^ 64 := goldilocks_sub_one_lt
  rw [powModFuel_correct 64 ((goldilocks - 1) / q) 7 goldilocks hlt]
  have hcast : ((7 ^ ((goldilocks - 1) / q) : Nat) : ZMod goldilocks)
      = ((1 : Nat) : ZMod goldilocks) := by
    push_cast
    exact hcontra
  rw [ZMod.natCast_eq_natCast_iff'] at hcast
  simpa using hcast

theorem goldilocks_prime : Nat.Prime goldilocks := by
  apply lucas_primality goldilocks 7
  · have key : ((7 ^ (goldilocks - 1) : Nat) : ZMod goldilocks)
        = ((1 : Nat) : ZMod goldilocks) := by
      rw [ZMod.natCast_eq_natCast_iff', seven_pow_card_sub_one]
      decide
    push_cast at key
    exact key
  · intro q hq hdvd
    have hq6 : q = 2 ∨ q = 3 ∨ q = 5 ∨ q = 17 ∨ q = 257 ∨ q = 65537 := by
      rw [goldilocks_sub_one_factorization] at hdvd
      rcases (Nat.Prime.dvd_mul hq).mp hdvd with h | h
      · exact Or.inl ((Nat.prime_dvd_prime_iff_eq hq Nat.prime_two).mp
          (Nat.Prime.dvd_of_dvd_pow hq h))
      rcases (Nat.Prime.dvd_mul hq).mp h with h | h
      · exact Or.inr (Or.inl ((Nat.prime_dvd_prime_iff_eq hq Nat.prime_three).mp h))
      rcases (Nat.Prime.dvd_mul hq).mp h with h | h
      · exact Or.inr (Or.inr (Or.inl
          ((Nat.prime_dvd_prime_iff_eq hq (by norm_num)).mp h)))
      rcases (Nat.Prime.dvd_mul hq).mp h with h | h
      · exact Or.inr (Or.inr (Or.inr (Or.inl
          ((Nat.prime_dvd_prime_iff_eq hq (by norm_num)).mp h))))
      rcases (Nat.Prime.dvd_mul hq).mp h with h | h
      · exact Or.inr (Or.inr (Or.inr (Or.inr (Or.inl
          ((Nat.prime_dvd_prime_iff_eq hq (by norm_num)).mp h)))))
      · exact Or.inr (Or.inr (Or.inr (Or.inr (Or.inr
          ((Nat.prime_dvd_prime_iff_eq hq (by norm_num)).mp h)))))
    rcases hq6 with rfl | rfl | rfl | rfl | rfl | rfl
    · exact seven_pow_ne_one_aux 2 (by decide)
    · exact seven_pow_ne_one_aux 3 (by decide)
    · exact seven_pow_ne_one_aux 5 (by decide)
    · exact seven_pow_ne_one_aux 17 (by decide)
    · exact seven_pow_ne_one_aux 257 (by decide)
    · exact seven_pow_ne_one_aux 65537 (by decide)

theorem natCast_goldilocks_inj {a b : Nat} (ha : a < goldilocks) (hb : b < goldilocks)
    (h : (a : F) = b) : a = b := by
  have := congrArg ZMod.val h
  rwa [ZMod.val_cast_of_lt ha, ZMod.val_cast_of_lt hb] at this

open ProcessorBaseTableColumn

/-- C1: `pad_trace` on a trace with `nRows > len > 0` clones the last real row
into every padding row, sets `IsPadding` to 1 and the clock-jump-difference
lookup multiplicity to 0 there, overwrites `CLK` in the padding region with
the ramp `len, len + 1, ..., nRows - 1`, and adds `2 * (nRows - len)` to the
lookup multiplicity of row 1 (on top of the value that cell holds after the
padding pass). -/
theorem pad_trace_spec (trace : Nat → Row) (nRows len : Nat)
    (hlen : 0 < len) (hrows : len < nRows) :
    (∀ i, len ≤ i → i < nRows → ∀ c, c ≠ IsPadding →
      c ≠ ClockJumpDifferenceLookupMultiplicity → c ≠ CLK →
      padTrace trace nRows len i c = trace (len - 1) c) ∧
    (∀ i, len ≤ i → i < nRows → padTrace trace nRows len i IsPadding = 1) ∧
    (∀ i, len ≤ i → i < nRows → i ≠ 1 →
      padTrace trace nRows len i ClockJumpDifferenceLookupMultiplicity = 0) ∧
    (∀ i, len ≤ i → i < nRows → padTrace trace nRows len i CLK = (i : F)) ∧
    (padTrace trace nRows len 1 ClockJumpDifferenceLookupMultiplicity
      = (if 1 < len then trace 1 ClockJumpDifferenceLookupMultiplicity else 0)
        + ((2 * (nRows - len) : Nat) : F)) := by
  refine ⟨?_, ?_, ?_, ?_, ?_⟩
  · intro i hi _ c h1 h2 h3
    simp [padTrace, padTraceClk, padTraceClone, paddingTemplate, hi, h1, h2, h3]
  · intro i hi _
    simp [padTrace, padTraceClk, padTraceClone, paddingTemplate, hi]
  · intro i hi _ hne
    simp [padTrace, padTraceClk, padTraceClone, paddingTemplate, hi, hne]
  · intro i hi _
    simp [padTrace, padTraceClk, padTraceClone, paddingTemplate, hi]
  · by_cases h1 : len ≤ 1
    · have hn : ¬ 1 < len := by omega
      simp [padTrace, padTraceClk, padTraceClone, paddingTemplate, h1, hn]
    · have hn : 1 < len := by omega
      simp [padTrace, padTraceClk, padTraceClone, paddingTemplate, h1, hn]

theorem pad_trace_spec_witness :
    padTrace (fun i _ => (i : F)) 8 5 1 ClockJumpDifferenceLookupMultiplicity
      = (1 : F) + ((6 : Nat) : F) := by
  have h := (pad_trace_spec (fun i _ => (i : F)) 8 5 (by decide) (by decide)).2.2.2.2
  simpa using h

/-- C9: frame property of `pad_trace`. Only rows of index at least `len` and
the single cell (row 1, `ClockJumpDifferenceLookupMultiplicity`) are modified;
every other cell of the real rows is unchanged. -/
theorem pad_trace_frame (trace : Nat → Row) (nRows len : Nat)
    (hlen : 0 < len) (hrows : len < nRows) :
    ∀ i, i < len → ∀ c, ¬(i = 1 ∧ c = ClockJumpDifferenceLookupMultiplicity) →
      padTrace trace nRows len i c = trace i c := by
  intro i hi c hc
  have hle : ¬ len ≤ i := by omega
  simp [padTrace, padTraceClk, padTraceClone, hc, hle]

theorem pad_trace_frame_witness :
    padTrace (fun i _ => (i : F)) 8 5 3 CLK = (3 : F) := by
  have h := pad_trace_frame (fun i _ => (i : F)) 8 5 (by decide) (by decide) 3
    (by decide) CLK (by decide)
  simpa using h

theorem instructionDeselectorEval_self_sq (j : Nat) :
    instructionDeselectorEval j (fun b => instructionBit j b)
      * instructionDeselectorEval j (fun b => instructionBit j b) = 1 := by
  rw [instructionDeselectorEval, ← Finset.prod_mul_distrib]
  apply Finset.prod_eq_one
  intro b _
  by_cases h : Nat.testBit j b.val
  · simp [instructionBit, h]
  · simp [instructionBit, h]

theorem instructionDeselectorEval_self_ne_zero (j : Nat) :
    instructionDeselectorEval j (fun b => instructionBit j b) ≠ 0 := by
  intro h
  have hsq := instructionDeselectorEval_self_sq j
  rw [h, mul_zero] at hsq
  haveI := Fact.mk goldilocks_prime
  exact zero_ne_one hsq

theorem instructionDeselectorEval_of_ne (j k : Nat) (hj : j < 256) (hk : k < 256)
    (hne : j ≠ k) :
    instructionDeselectorEval j (fun b => instructionBit k b) = 0 := by
  have hbit : ∃ b : Fin 8, Nat.testBit j b.val ≠ Nat.testBit k b.val := by
    by_contra hcon
    push_neg at hcon
    apply hne
    apply Nat.eq_of_testBit_eq
    intro i
    by_cases hi : i < 8
    · exact hcon ⟨i, hi⟩
    · have h8 : (256 : Nat) ≤ 2 ^ i := by
        calc (256 : Nat) = 2 ^ 8 := by norm_num
        _ ≤ 2 ^ i := Nat.pow_le_pow_right (by norm_num) (by omega)
      rw [Nat.testBit_eq_false_of_lt (lt_of_lt_of_le hj h8),
        Nat.testBit_eq_false_of_lt (lt_of_lt_of_le hk h8)]
  obtain ⟨b, hb⟩ := hbit
  apply Finset.prod_eq_zero (Finset.mem_univ b)
  rcases Bool.eq_false_or_eq_true (Nat.testBit j b.val) with hbj | hbj <;>
    rcases Bool.eq_false_or_eq_true (Nat.testBit k b.val) with hbk | hbk <;>
      simp [instructionBit, hbj, hbk] at hb ⊢

/-- C3: for opcodes `j` and `k` below 256 and rows whose instruction-bit
columns carry the bit decomposition of `k`, the deselector for `j` is
non-zero when `k = j` and zero when `k ≠ j`, in all three variants
(current-row, next-row, single-row). -/
theorem instruction_deselector_spec (j k : Nat) (hj : j < 256) (hk : k < 256)
    (curr next single : Row)
    (hcurr : ∀ b, curr (ibColumn b) = instructionBit k b)
    (hnext : ∀ b, next (ibColumn b) = instructionBit k b)
    (hsingle : ∀ b, single (ibColumn b) = instructionBit k b) :
    (j = k →
      instructionDeselectorCurrentRow j curr next ≠ 0 ∧
      instructionDeselectorNextRow j curr next ≠ 0 ∧
      instructionDeselectorSingleRow j single ≠ 0) ∧
    (j ≠ k →
      instructionDeselectorCurrentRow j curr next = 0 ∧
      instructionDeselectorNextRow j curr next = 0 ∧
      instructionDeselectorSingleRow j single = 0) := by
  have ec : instructionDeselectorCurrentRow j curr next
      = instructionDeselectorEval j (fun b => instructionBit k b) := by
    unfold instructionDeselectorCurrentRow
    exact congrArg _ (funext hcurr)
  have en : instructionDeselectorNextRow j curr next
      = instructionDeselectorEval j (fun b => instructionBit k b) := by
    unfold instructionDeselectorNextRow
    exact congrArg _ (funext hnext)
  have es : instructionDeselectorSingleRow j single
      = instructionDeselectorEval j (fun b => instructionBit k b) := by
    unfold instructionDeselectorSingleRow
    exact congrArg _ (funext hsingle)
  constructor
  · intro hjk
    subst hjk
    rw [ec, en, es]
    exact ⟨instructionDeselectorEval_self_ne_zero j,
      instructionDeselectorEval_self_ne_zero j,
      instructionDeselectorEval_self_ne_zero j⟩
  · intro hjk
    rw [ec, en, es]
    have hz := instructionDeselectorEval_of_ne j k hj hk hjk
    exact ⟨hz, hz, hz⟩

theorem instruction_deselector_spec_witness :
    instructionDeselectorSingleRow 3
      (fun c => if c = IB0 then (1 : F) else if c = IB2 then 1 else 0) = 0 :=
  ((instruction_deselector_spec 3 5 (by decide) (by decide)
    (fun c => if c = IB0 then (1 : F) else if c = IB2 then 1 else 0)
    (fun c => if c = IB0 then (1 : F) else if c = IB2 then 1 else 0)
    (fun c => if c = IB0 then (1 : F) else if c = IB2 then 1 else 0)
    (by decide) (by decide) (by decide)).2 (by decide)).2.2

/-- C7 counterexample: over an arbitrary (non-bit) assignment to the helper
variables the indicator polynomial need not evaluate to 0 or 1. With
`HV0 = 2` and `HV1 = HV2 = HV3 = 0`, which differs from the binary
representation of 0, `indicator_polynomial(0)` evaluates to `-1 ≠ 0`. -/
theorem indicator_polynomial_counterexample :
    (fun c => if c = HV0 then (2 : F) else 0) HV0 ≠ 0 ∧
    indicatorPolynomial 0 (fun c => if c = HV0 then (2 : F) else 0) ≠ 0 := by
  constructor
  · decide
  · decide

/-- C7 (amended): for every `n < 16` and every assignment of bit values
(0 or 1) to `HV0..HV3`, `indicator_polynomial(n)` evaluates to 1 exactly when
`(HV0, HV1, HV2, HV3)` is the binary representation of `n` (`HV0` least
significant), and to 0 otherwise. -/
theorem indicator_polynomial_spec (n : Nat) (hn : n < 16) (row : Row)
    (h0 : row HV0 = 0 ∨ row HV0 = 1) (h1 : row HV1 = 0 ∨ row HV1 = 1)
    (h2 : row HV2 = 0 ∨ row HV2 = 1) (h3 : row HV3 = 0 ∨ row HV3 = 1) :
    indicatorPolynomial n row
      = if (row HV0, row HV1, row HV2, row HV3) = binaryRep n then 1 else 0 := by
  interval_cases n <;>
    rcases h0 with h0 | h0 <;> rcases h1 with h1 | h1 <;>
    rcases h2 with h2 | h2 <;> rcases h3 with h3 | h3 <;>
    simp only [indicatorPolynomial, binaryRep, h0, h1, h2, h3] <;> decide

theorem indicator_polynomial_spec_witness :
    indicatorPolynomial 5
      (fun c => if c = HV0 then (1 : F) else if c = HV2 then 1 else 0) = 1 := by
  have h := indicator_polynomial_spec 5 (by decide)
    (fun c => if c = HV0 then (1 : F) else if c = HV2 then 1 else 0)
    (by decide) (by decide) (by decide) (by decide)
  rw [h]
  decide

/-- C5: for a pair of consecutive rows executing `skiz` with well-formed
helper variables (the two inverse-or-zero constraints on `HV1`, the range
checks on `HV2..HV6`, and the decomposition of `NIA`), the combined
constraint `ip_incr_by_1_or_2_or_3` vanishes exactly on the three specified
instruction-pointer updates: `IP` advances by 1 with `ST0 ≠ 0`, by 2 with
`ST0 = 0` and `HV2 = 0`, and by 3 with `ST0 = 0` and `HV2 = 1`. -/
theorem instruction_skiz_ip_spec (curr next : Row)
    (hinv1 : hv1IsInverseOfSt0OrHv1Is0 curr = 0)
    (hinv2 : hv1IsInverseOfSt0OrSt0Is0 curr = 0)
    (hnia : niaDecomposesToHvs curr = 0)
    (h2 : is0Or1 (curr HV2) = 0)
    (h3 : is0Or1Or2Or3 (curr HV3) = 0)
    (h4 : is0Or1Or2Or3 (curr HV4) = 0)
    (h5 : is0Or1Or2Or3 (curr HV5) = 0)
    (h6 : is0Or1Or2Or3 (curr HV6) = 0) :
    ipIncrBy1Or2Or3 curr next = 0 ↔
      (curr ST0 ≠ 0 ∧ next IP = curr IP + 1) ∨
      (curr ST0 = 0 ∧ curr HV2 = 0 ∧ next IP = curr IP + 2) ∨
      (curr ST0 = 0 ∧ curr HV2 = 1 ∧ next IP = curr IP + 3) := by
  haveI := Fact.mk goldilocks_prime
  by_cases hst : curr ST0 = 0
  · have hh2 : curr HV2 = 0 ∨ curr HV2 = 1 := by
      unfold is0Or1 at h2
      rcases mul_eq_zero.mp h2 with h | h
      · exact Or.inl h
      · exact Or.inr (by linear_combination h)
    rcases hh2 with hh | hh
    · have e : ipIncrBy1Or2Or3 curr next = next IP - curr IP - 2 := by
        simp only [ipIncrBy1Or2Or3, ipCase1, ipCase2, ipCase3, hst, hh]
        ring
      rw [e]
      constructor
      · intro hz
        exact Or.inr (Or.inl ⟨hst, hh, by linear_combination hz⟩)
      · rintro (⟨hne, _⟩ | ⟨_, _, hip⟩ | ⟨_, hh2, _⟩)
        · exact absurd hst hne
        · rw [hip]; ring
        · rw [hh] at hh2
          exact (zero_ne_one hh2).elim
    · have e : ipIncrBy1Or2Or3 curr next = -(next IP - curr IP - 3) := by
        simp only [ipIncrBy1Or2Or3, ipCase1, ipCase2, ipCase3, hst, hh]
        ring
      rw [e]
      constructor
      · intro hz
        exact Or.inr (Or.inr ⟨hst, hh, by linear_combination -hz⟩)
      · rintro (⟨hne, _⟩ | ⟨_, hh2, _⟩ | ⟨_, _, hip⟩)
        · exact absurd hst hne
        · rw [hh] at hh2
          exact (one_ne_zero hh2).elim
        · rw [hip]; ring
  · have hfac : curr ST0 * curr HV1 - 1 = 0 := by
      unfold hv1IsInverseOfSt0OrSt0Is0 at hinv2
      rcases mul_eq_zero.mp hinv2 with h | h
      · linear_combination h
      · exact absurd h hst
    have e : ipIncrBy1Or2Or3 curr next = (next IP - curr IP - 1) * curr ST0 := by
      simp only [ipIncrBy1Or2Or3, ipCase1, ipCase2, ipCase3]
      linear_combination ((next IP - curr IP - 2) * (curr HV2 - 1)
        + (next IP - curr IP - 3) * curr HV2) * hfac
    rw [e]
    constructor
    · intro hz
      rcases mul_eq_zero.mp hz with h | h
      · exact Or.inl ⟨hst, by linear_combination h⟩
      · exact absurd h hst
    · rintro (⟨_, hip⟩ | ⟨hz, _, _⟩ | ⟨hz, _, _⟩)
      · rw [hip]; ring
      · exact absurd hz hst
      · exact absurd hz hst

theorem instruction_skiz_ip_spec_witness :
    ipIncrBy1Or2Or3 (fun _ => (0 : F)) (fun c => if c = IP then 2 else 0) = 0 := by
  have h := (instruction_skiz_ip_spec (fun _ => (0 : F))
    (fun c => if c = IP then 2 else 0)
    (by decide) (by decide) (by decide) (by decide)
    (by decide) (by decide) (by decide) (by decide)).mpr
    (Or.inr (Or.inl ⟨by decide, by decide, by decide⟩))
  exact h

open ProcessorExtTableColumn ChallengeId

/-- C2 counterexample: the initial constraint for
`InstructionLookupClientLogDerivative` is not "equals the default initial":
with every base cell, every challenge and the accumulator equal to 0 (0 being
the log-derivative default initial), the constraint evaluates to -1, not 0,
so the default initial value violates it. -/
theorem initial_ext_constraints_counterexample :
    illdInitialConstraint (fun _ => 0) (fun _ => lookupArgDefaultInitial)
      (fun _ => 0) ≠ 0 := by
  decide

/-- C2 (amended): the initial constraints pin every extension accumulator at
row 0 to its default initial, with exactly these exceptions: the RAM and
Jump-Stack permutation arguments equal one compression factor applied once at
row 0; `InstructionLookupClientLogDerivative` is constrained so that the
accumulator times `(InstructionLookupIndeterminate - compressed row 0)`
equals 1, i.e. it already holds the first lookup term; and `HashInputEvalArg`
is split by a selector/deselector on whether `CI` is `Hash`'s opcode into
"absorbed-first-row" versus "remains default". -/
theorem initial_ext_constraints_spec (base : Row) (ext : ExtRow) (ch : Challenges)
    (hashOpcode k : Nat) (hHashOp : hashOpcode < 256) (hk : k < 256)
    (hbits : ∀ b, base (ibColumn b) = instructionBit k b)
    (hci : base CI = (k : F)) :
    (inputEvalArgInitialConstraint ext = 0 ↔
      ext InputTableEvalArg = evalArgDefaultInitial) ∧
    (outputEvalArgInitialConstraint ext = 0 ↔
      ext OutputTableEvalArg = evalArgDefaultInitial) ∧
    (opStackPermArgInitialConstraint ext = 0 ↔
      ext OpStackTablePermArg = permArgDefaultInitial) ∧
    (clockJumpDiffInitialConstraint ext = 0 ↔
      ext ClockJumpDifferenceLookupServerLogDerivative = lookupArgDefaultInitial) ∧
    (hashDigestInitialConstraint ext = 0 ↔
      ext HashDigestEvalArg = evalArgDefaultInitial) ∧
    (spongeInitialConstraint ext = 0 ↔
      ext SpongeEvalArg = evalArgDefaultInitial) ∧
    (u32InitialConstraint ext = 0 ↔
      ext U32LookupClientLogDerivative = lookupArgDefaultInitial) ∧
    (ramPermArgInitialConstraint base ext ch = 0 ↔
      ext RamTablePermArg = ch RamIndeterminate - ch RamRamvWeight * base RAMV) ∧
    (jumpStackPermArgInitialConstraint base ext ch = 0 ↔
      ext JumpStackTablePermArg
        = ch JumpStackIndeterminate - ch JumpStackCiWeight * base CI) ∧
    (illdInitialConstraint base ext ch = 0 ↔
      ext InstructionLookupClientLogDerivative
        * (ch InstructionLookupIndeterminate
          - (ch ProgramInstructionWeight * base CI
            + ch ProgramNextInstructionWeight * base NIA)) = 1) ∧
    (k = hashOpcode →
      (hashInputInitialConstraint hashOpcode base ext ch = 0 ↔
        ext HashInputEvalArg = ch HashInputIndeterminate * evalArgDefaultInitial)) ∧
    (k ≠ hashOpcode →
      (hashInputInitialConstraint hashOpcode base ext ch = 0 ↔
        ext HashInputEvalArg = evalArgDefaultInitial)) := by
  haveI := Fact.mk goldilocks_prime
  refine ⟨?_, ?_, ?_, ?_, ?_, ?_, ?_, ?_, ?_, ?_, ?_, ?_⟩
  · exact sub_eq_zero
  · exact sub_eq_zero
  · exact sub_eq_zero
  · exact sub_eq_zero
  · exact sub_eq_zero
  · exact sub_eq_zero
  · exact sub_eq_zero
  · unfold ramPermArgInitialConstraint permArgDefaultInitial
    rw [one_mul]
    exact sub_eq_zero
  · unfold jumpStackPermArgInitialConstraint permArgDefaultInitial
    rw [one_mul]
    exact sub_eq_zero
  · unfold illdInitialConstraint lookupArgDefaultInitial
    constructor
    · intro h
      linear_combination h
    · intro h
      linear_combination h
  · intro hkop
    subst hkop
    have hsel : base CI - (k : F) = 0 := by
      rw [hci]
      ring
    have hdes : instructionDeselectorSingleRow k base
        = instructionDeselectorEval k (fun b => instructionBit k b) := by
      unfold instructionDeselectorSingleRow
      exact congrArg _ (funext hbits)
    unfold hashInputInitialConstraint
    rw [hsel, hdes, zero_mul, zero_add]
    rw [mul_eq_zero]
    constructor
    · intro h
      rcases h with h | h
      · exact absurd h (instructionDeselectorEval_self_ne_zero k)
      · linear_combination h
    · intro h
      right
      rw [h]
      ring
  · intro hkop
    have hdes : instructionDeselectorSingleRow hashOpcode base = 0 := by
      have hrw : instructionDeselectorSingleRow hashOpcode base
          = instructionDeselectorEval hashOpcode (fun b => instructionBit k b) := by
        unfold instructionDeselectorSingleRow
        exact congrArg _ (funext hbits)
      rw [hrw]
      exact instructionDeselectorEval_of_ne hashOpcode k hHashOp hk
        (fun hcon => hkop hcon.symm)
    have hsel : base CI - (hashOpcode : F) ≠ 0 := by
      intro hcon
      apply hkop
      apply natCast_goldilocks_inj (lt_trans hk (by decide))
        (lt_trans hHashOp (by decide))
      rw [← hci]
      linear_combination hcon
    unfold hashInputInitialConstraint
    rw [hdes, zero_mul, add_zero]
    rw [mul_eq_zero]
    constructor
    · intro h
      rcases h with h | h
      · exact absurd h hsel
      · exact sub_eq_zero.mp h
    · intro h
      right
      rw [h]
      ring

theorem initial_ext_constraints_spec_witness :
    hashInputInitialConstraint 5
      (fun c => if c = IB0 then (1 : F) else if c = IB1 then 1 else if c = CI then 3 else 0)
      (fun _ => 1) (fun _ => 0) = 0 := by
  have h := (initial_ext_constraints_spec
    (fun c => if c = IB0 then (1 : F) else if c = IB1 then 1 else if c = CI then 3 else 0)
    (fun _ => 1) (fun _ => 0) 5 3 (by decide) (by decide) (by decide)
    (by decide)).2.2.2.2.2.2.2.2.2.2.2 (by decide)
  exact h.mpr (by decide)

theorem natCast256_ne {a b : Nat} (ha : a < 256) (hb : b < 256) (h : a ≠ b) :
    (a : F) ≠ (b : F) := fun hc =>
  h (natCast_goldilocks_inj (lt_trans ha (by decide)) (lt_trans hb (by decide)) hc)

/-- C4: in the trace extender's U32 log-derivative update, a row whose
previous instruction is `xor` adds exactly one term, the inverse of the
indeterminate minus the `and`-rewritten compressed row; a row whose previous
instruction is `div_mod` adds exactly two terms, an `lt`-form term (lhs the
current `ST0`, rhs the previous `ST1`, result 1) and a `split`-form term
(lhs the previous `ST0`, rhs the current `ST1`); and the factors of the
corresponding transition constraint encode the same compression formulas. -/
theorem u32_log_derivative_update_spec (ops : U32TableOpcodes)
    (prev curr next : Row) (ch : Challenges) (acc : F)
    (h256 : ops.split < 256 ∧ ops.lt < 256 ∧ ops.and < 256 ∧ ops.xor < 256 ∧
      ops.pow < 256 ∧ ops.log2Floor < 256 ∧ ops.popCount < 256 ∧ ops.divMod < 256)
    (hdist : ops.xor ≠ ops.split ∧ ops.xor ≠ ops.lt ∧ ops.xor ≠ ops.and ∧
      ops.xor ≠ ops.pow ∧ ops.xor ≠ ops.log2Floor ∧ ops.xor ≠ ops.popCount ∧
      ops.xor ≠ ops.divMod ∧ ops.divMod ≠ ops.split ∧ ops.divMod ≠ ops.lt ∧
      ops.divMod ≠ ops.and ∧ ops.divMod ≠ ops.pow ∧ ops.divMod ≠ ops.log2Floor ∧
      ops.divMod ≠ ops.popCount) :
    (prev CI = (ops.xor : F) →
      u32LogDerivUpdate ops prev curr ch acc
        = acc + (ch U32Indeterminate
          - (prev ST0 * ch U32LhsWeight + prev ST1 * ch U32RhsWeight
            + (ops.and : F) * ch U32CiWeight
            + (prev ST0 + prev ST1 - curr ST0) * (2 : F)⁻¹ * ch U32ResultWeight))⁻¹) ∧
    (prev CI = (ops.divMod : F) →
      u32LogDerivUpdate ops prev curr ch acc
        = acc + (ch U32Indeterminate
            - (curr ST0 * ch U32LhsWeight + prev ST1 * ch U32RhsWeight
              + (ops.lt : F) * ch U32CiWeight + 1 * ch U32ResultWeight))⁻¹
          + (ch U32Indeterminate
            - (prev ST0 * ch U32LhsWeight + curr ST1 * ch U32RhsWeight
              + (ops.split : F) * ch U32CiWeight))⁻¹) ∧
    (u32TransXorFactor ops curr next ch
      = ch U32Indeterminate - u32XorCompressedRow ops curr next ch) ∧
    (u32TransDivModLtFactor ops curr next ch
      = ch U32Indeterminate - u32DivModLtCompressedRow ops curr next ch) ∧
    (u32TransDivModRangeCheckFactor ops curr next ch
      = ch U32Indeterminate - u32DivModRangeCheckCompressedRow ops curr next ch) := by
  obtain ⟨b1, b2, b3, b4, b5, b6, b7, b8⟩ := h256
  obtain ⟨d1, d2, d3, d4, d5, d6, d7, d8, d9, d10, d11, d12, d13⟩ := hdist
  refine ⟨?_, ?_, ?_, ?_, ?_⟩
  · intro hci
    have n1 := natCast256_ne b4 b1 d1
    have n2 := natCast256_ne b4 b2 d2
    have n3 := natCast256_ne b4 b3 d3
    have n4 := natCast256_ne b4 b5 d4
    have n5 := natCast256_ne b4 b6 d5
    have n6 := natCast256_ne b4 b7 d6
    have n7 := natCast256_ne b4 b8 d7
    simp [u32LogDerivUpdate, hci, n1, n2, n3, n4, n5, n6, n7, u32XorCompressedRow]
  · intro hci
    have n1 := natCast256_ne b8 b1 d8
    have n2 := natCast256_ne b8 b2 d9
    have n3 := natCast256_ne b8 b3 d10
    have n4 := natCast256_ne b8 b5 d11
    have n5 := natCast256_ne b8 b4 (Ne.symm d7)
    have n6 := natCast256_ne b8 b6 d12
    have n7 := natCast256_ne b8 b7 d13
    simp [u32LogDerivUpdate, hci, n1, n2, n3, n4, n5, n6, n7,
      u32DivModLtCompressedRow, u32DivModRangeCheckCompressedRow]
  · unfold u32TransXorFactor u32XorCompressedRow
    ring
  · unfold u32TransDivModLtFactor u32DivModLtCompressedRow
    ring
  · unfold u32TransDivModRangeCheckFactor u32DivModRangeCheckCompressedRow
    ring

theorem u32_log_derivative_update_spec_witness :
    u32LogDerivUpdate ⟨4, 6, 14, 22, 30, 12, 28, 20⟩
      (fun c => if c = CI then (22 : F) else 0) (fun _ => 0) (fun _ => 0) 0 = 0 := by
  have hci : ((fun c => if c = CI then (22 : F) else 0) : Row) CI
      = (((⟨4, 6, 14, 22, 30, 12, 28, 20⟩ : U32TableOpcodes).xor : Nat) : F) := by
    decide
  haveI := Fact.mk goldilocks_prime
  have h := (u32_log_derivative_update_spec ⟨4, 6, 14, 22, 30, 12, 28, 20⟩
    ((fun c => if c = CI then (22 : F) else 0) : Row) ((fun _ => 0) : Row)
    ((fun _ => 0) : Row) ((fun _ => 0) : Challenges) (0 : F)
    (by decide) (by decide)).1 hci
  rw [h]
  simp

/-- C6: `factor_for_op_stack_table_running_product` returns the
multiplicative identity 1 when the current row is a padding row, when there
is no previous row, and when the previous row's `CI` does not decode to a
legal instruction. -/
theorem factor_for_op_stack_identity_cases (decode : F → Option DecodedInstruction)
    (prev curr : Row) (ch : Challenges) :
    (curr IsPadding = 1 →
      ∀ mp : Option Row, factorForOpStackTableRunningProduct decode mp curr ch = 1) ∧
    (factorForOpStackTableRunningProduct decode none curr ch = 1) ∧
    (decode (prev CI) = none →
      factorForOpStackTableRunningProduct decode (some prev) curr ch = 1) := by
  refine ⟨?_, ?_, ?_⟩
  · intro hp mp
    simp [factorForOpStackTableRunningProduct, hp]
  · by_cases hp : curr IsPadding = 1 <;>
      simp [factorForOpStackTableRunningProduct, hp]
  · intro hdec
    by_cases hp : curr IsPadding = 1 <;>
      simp [factorForOpStackTableRunningProduct, hp, hdec]

theorem factor_for_op_stack_identity_cases_witness :
    factorForOpStackTableRunningProduct (fun _ => none) (some (fun _ => 0))
      (fun _ => 0) (fun _ => 0) = 1 :=
  (factor_for_op_stack_identity_cases (fun _ => none) (fun _ => 0) (fun _ => 0)
    (fun _ => 0)).2.2 rfl

theorem enqueueAll_items {α σ : Type} (fsh : α → Bool) (absorb : σ → α → σ) :
    ∀ (l : List α) (s : ProofStream α σ),
      (ProofStream.enqueueAll fsh absorb s l).items = s.items ++ l := by
  intro l
  induction l with
  | nil =>
    intro s
    simp [ProofStream.enqueueAll]
  | cons a l ih =>
    intro s
    show (ProofStream.enqueueAll fsh absorb (ProofStream.enqueue fsh absorb a s) l).items
      = s.items ++ a :: l
    rw [ih]
    simp [ProofStream.enqueue]

theorem enqueueAll_index {α σ : Type} (fsh : α → Bool) (absorb : σ → α → σ) :
    ∀ (l : List α) (s : ProofStream α σ),
      (ProofStream.enqueueAll fsh absorb s l).items_index = s.items_index := by
  intro l
  induction l with
  | nil =>
    intro s
    simp [ProofStream.enqueueAll]
  | cons a l ih =>
    intro s
    show (ProofStream.enqueueAll fsh absorb (ProofStream.enqueue fsh absorb a s) l).items_index
      = s.items_index
    rw [ih]
    simp [ProofStream.enqueue]

theorem dequeue_ok {α σ : Type} (fsh : α → Bool) (absorb : σ → α → σ)
    (s : ProofStream α σ) (h : s.items_index < s.items.length) :
    (ProofStream.dequeue fsh absorb s).1
        = Except.ok (s.items.get ⟨s.items_index, h⟩) ∧
      (ProofStream.dequeue fsh absorb s).2.items = s.items ∧
      (ProofStream.dequeue fsh absorb s).2.items_index = s.items_index + 1 := by
  have hq : s.items[s.items_index]? = some s.items[s.items_index] :=
    List.getElem?_eq_getElem h
  by_cases hf : fsh s.items[s.items_index] <;>
    simp [ProofStream.dequeue, hq, hf, List.get_eq_getElem]

theorem dequeueMany_ok {α σ : Type} (fsh : α → Bool) (absorb : σ → α → σ) :
    ∀ (k : Nat) (s : ProofStream α σ), s.items_index + k ≤ s.items.length →
      (ProofStream.dequeueMany fsh absorb s k).1
        = ((s.items.drop s.items_index).take k).map Except.ok := by
  intro k
  induction k with
  | zero =>
    intro s _
    simp [ProofStream.dequeueMany]
  | succ k ih =>
    intro s h
    have hlt : s.items_index < s.items.length := by omega
    obtain ⟨h1, h2, h3⟩ := dequeue_ok fsh absorb s hlt
    have hrec := ih (ProofStream.dequeue fsh absorb s).2 (by rw [h2, h3]; omega)
    rw [h2, h3] at hrec
    show (ProofStream.dequeue fsh absorb s).1
        :: (ProofStream.dequeueMany fsh absorb (ProofStream.dequeue fsh absorb s).2 k).1
      = ((s.items.drop s.items_index).take (k + 1)).map Except.ok
    rw [h1, hrec, List.drop_eq_getElem_cons hlt, List.take_succ_cons, List.map_cons,
      List.get_eq_getElem]

/-- C10: `dequeue` fails with `EmptyQueue` exactly when `items_index` is past
the end of `items`, and in that case the stream (items, index and sponge
state) is unchanged; on success it returns `items[items_index]`, advances the
index by 1 and leaves `items` intact, so enqueueing a list onto a fresh
stream and dequeueing repeatedly yields the items in enqueue order. -/
theorem proof_stream_dequeue_spec {α σ : Type} (fsh : α → Bool)
    (absorb : σ → α → σ) (s : ProofStream α σ) :
    ((ProofStream.dequeue fsh absorb s).1
        = Except.error ProofStreamError.EmptyQueue ↔
      s.items.length ≤ s.items_index) ∧
    (s.items.length ≤ s.items_index → (ProofStream.dequeue fsh absorb s).2 = s) ∧
    (∀ h : s.items_index < s.items.length,
      (ProofStream.dequeue fsh absorb s).1
          = Except.ok (s.items.get ⟨s.items_index, h⟩) ∧
        (ProofStream.dequeue fsh absorb s).2.items = s.items ∧
        (ProofStream.dequeue fsh absorb s).2.items_index = s.items_index + 1) ∧
    (∀ (l : List α) (init : σ),
      (ProofStream.dequeueMany fsh absorb
        (ProofStream.enqueueAll fsh absorb (ProofStream.new α σ init) l) l.length).1
        = l.map Except.ok) := by
  refine ⟨?_, ?_, ?_, ?_⟩
  · by_cases h : s.items_index < s.items.length
    · obtain ⟨h1, _, _⟩ := dequeue_ok fsh absorb s h
      rw [h1]
      constructor
      · intro hcon
        exact absurd hcon (by simp)
      · intro hcon
        omega
    · have hq : s.items[s.items_index]? = none := List.getElem?_eq_none (by omega)
      simp [ProofStream.dequeue, hq]
      omega
  · intro h
    have hq : s.items[s.items_index]? = none := List.getElem?_eq_none h
    simp [ProofStream.dequeue, hq]
  · exact dequeue_ok fsh absorb s
  · intro l init
    have ht := dequeueMany_ok fsh absorb l.length
      (ProofStream.enqueueAll fsh absorb (ProofStream.new α σ init) l)
    rw [enqueueAll_items, enqueueAll_index] at ht
    have ht' := ht (by simp [ProofStream.new])
    simpa [ProofStream.new] using ht'

theorem proof_stream_dequeue_spec_witness :
    (ProofStream.dequeueMany (fun (_ : Nat) => true) (fun (st : Nat) a => st + a)
      (ProofStream.enqueueAll (fun _ => true) (fun st a => st + a)
        (ProofStream.new Nat Nat 0) [4, 7]) 2).1
      = [Except.ok 4, Except.ok 7] := by
  have h := (proof_stream_dequeue_spec (fun (_ : Nat) => true)
    (fun (st : Nat) a => st + a) (ProofStream.new Nat Nat 0)).2.2.2 [4, 7] 0
  simpa using h

theorem decodeItems_encodeItems {α : Type} (encItem : α → List F)
    (decItem : List F → Option α)
    (hdec : ∀ a, decItem (encItem a) = some a)
    (hlen : ∀ a, (encItem a).length < goldilocks) :
    ∀ (l : List α) (rest : List F),
      decodeItems decItem l.length (encodeItems encItem l ++ rest)
        = some (l, rest) := by
  intro l
  induction l with
  | nil =>
    intro rest
    simp [encodeItems, decodeItems]
  | cons a l ih =>
    intro rest
    have hval : (((encItem a).length : F)).val = (encItem a).length :=
      ZMod.val_cast_of_lt (hlen a)
    show decodeItems decItem (l.length + 1)
      ((((encItem a).length : F) :: (encItem a ++ encodeItems encItem l)) ++ rest)
      = some (a :: l, rest)
    rw [List.cons_append, List.append_assoc]
    simp only [decodeItems, hval]
    rw [if_pos (by simp), List.take_left, List.drop_left, hdec a, ih rest]

/-- C8: encoding a proof stream and decoding the result yields a stream whose
`items` equal the original ones and whose `items_index` is 0 (the index is
not serialized; decoding resets it to its default). -/
theorem proof_stream_round_trip {α σ : Type} (encItem : α → List F)
    (decItem : List F → Option α) (defaultSponge : σ)
    (hdec : ∀ a, decItem (encItem a) = some a)
    (hlen : ∀ a, (encItem a).length < goldilocks)
    (s : ProofStream α σ) (hcount : s.items.length < goldilocks) :
    proofStreamDecode decItem defaultSponge (proofStreamEncode encItem s)
      = some ⟨s.items, 0, defaultSponge⟩ := by
  have hval : ((s.items.length : Nat) : F).val = s.items.length :=
    ZMod.val_cast_of_lt hcount
  have h := decodeItems_encodeItems encItem decItem hdec hlen s.items []
  rw [List.append_nil] at h
  simp only [proofStreamEncode, proofStreamDecode, hval, h]

theorem proof_stream_round_trip_witness :
    proofStreamDecode
      (fun l => match l with | [x] => some x | _ => none) ()
      (proofStreamEncode (fun (x : F) => [x])
        (⟨[2, 3], 7, ()⟩ : ProofStream F Unit))
      = some ⟨[2, 3], 0, ()⟩ :=
  proof_stream_round_trip (fun (x : F) => [x])
    (fun l => match l with | [x] => some x | _ => none) ()
    (fun _ => rfl) (fun _ => (by decide : (1 : Nat) < goldilocks)) ⟨[2, 3], 7, ()⟩
    (by decide)

end TritonVM
